import Mathlib

/-!
Verification development for the SheetLayout plywood layout optimizer
(src/streamlit_layout_optimizer.py).

The Python source is shallowly embedded as follows:

* Python floats are modelled as exact rationals (ℚ); `round` is Python's
  banker's rounding (round half to even), modelled by `pyRound`.
* Strings are modelled as `List Char`; the string helpers used by the
  parser (`str.strip`, `str.split`, `in`) are implemented directly with
  Python's semantics (`pyStrip`, `pySplitWs`, `pySplitLines`).
* Exceptions are modelled with `Except PyErr`; `ValueError` and
  `ZeroDivisionError` are the two exception classes reachable in the
  parsing code, and only `ValueError` is caught by `parse_cut_list`.
* The 2-D bin packing engine invoked through `rectpack.newPacker`
  (`newPacker(rotation=True)`, 100 bins added up front, internal
  fixed-point scale of 100) is not part of the repository's sources.
  Those parts are modelled from the spec (sections 4.2-4.4): free
  rectangles per sheet, maximal-rectangles splitting on commit,
  containment/zero-area pruning, decreasing-area piece ordering,
  best-area-fit selection with short-side/sheet-order tiebreaks, and
  lazy sheet opening up to the bin count the source hardcodes (100).
  Because the source passes `rotation=True` for every rectangle, every
  piece may be placed in either orientation; the grain handling in
  `run_layout_optimizer` (lines 68-71) only pre-swaps the initial
  orientation.
-/

/-- Python `round` on an exact rational: round half to even. -/
def pyRound (q : ℚ) : ℤ :=
  if q - ⌊q⌋ < 1/2 then ⌊q⌋
  else if 1/2 < q - ⌊q⌋ then ⌊q⌋ + 1
  else if ⌊q⌋ % 2 = 0 then ⌊q⌋ else ⌊q⌋ + 1

/-- Python `round(x, n)`: round to `n` decimal places, half to even. -/
def roundTo (n : ℕ) (q : ℚ) : ℚ := (pyRound (q * 10 ^ n) : ℚ) / 10 ^ n

/-- Source line 11-12: `rounded(value) = round(value + 1e-6, 2)`. -/
def rounded (v : ℚ) : ℚ := roundTo 2 (v + 1/1000000)

/-- Source line 54: `scale_up(v) = int(round(v * 100))` with scale 100. -/
def scale_up (v : ℚ) : ℤ := pyRound (v * 100)

/-- Grain letter of a piece: `L` (along length) or `W` (along width). -/
inductive Grain
  | L
  | W
deriving DecidableEq

/-- Exception classes reachable in the parsing code. -/
inductive PyErr
  | valueError
  | zeroDivision
deriving DecidableEq

deriving instance DecidableEq for Except

/-- Normalized piece record handed to the optimizer (one entry of `cuts`). -/
structure Cut where
  length : ℚ
  width : ℚ
  grain : Option Grain
deriving DecidableEq

/-- Result of `parse_cut_line` (source lines 24-36). -/
structure ParsedLine where
  length : ℚ
  width : ℚ
  grain : Option Grain
  quantity : ℕ
deriving DecidableEq

/-- Default cut used to model Python list indexing `cuts[rid]` (which in
the source is always in range for placed rectangles). -/
def defaultCut : Cut := ⟨0, 0, none⟩

/-- Longest run of characters satisfying `p`, and the remainder. -/
def takeRun (p : Char → Bool) : List Char → List Char × List Char
  | [] => ([], [])
  | c :: cs =>
    if p c then
      let r := takeRun p cs
      (c :: r.1, r.2)
    else ([], c :: cs)

/-- Python `str.strip()` (whitespace from both ends). -/
def pyStrip (cs : List Char) : List Char :=
  ((cs.dropWhile Char.isWhitespace).reverse.dropWhile Char.isWhitespace).reverse

/-- Helper: prepend a character to the first chunk of a split. -/
def consHead (c : Char) : List (List Char) → List (List Char)
  | [] => [[c]]
  | w :: ws => (c :: w) :: ws

/-- Split at every character satisfying `p`, keeping empty chunks. -/
def splitEvery (p : Char → Bool) : List Char → List (List Char)
  | [] => [[]]
  | c :: cs => if p c then [] :: splitEvery p cs else consHead c (splitEvery p cs)

/-- Python `str.split('\n')`. -/
def pySplitLines (cs : List Char) : List (List Char) :=
  splitEvery (fun c => c = '\n') cs

/-- Python `str.split()` with no argument: split on whitespace runs,
dropping empty chunks. -/
def pySplitWs (cs : List Char) : List (List Char) :=
  (splitEvery Char.isWhitespace cs).filter (fun w => !w.isEmpty)

/-- Numeric value of a digit run. -/
def digitsToNat (ds : List Char) : ℕ :=
  ds.foldl (fun n c => 10 * n + (c.toNat - 48)) 0

/-- Python `float(s)` on the strings reachable from the cut-line grammar
(digits, dots, slashes, whitespace): strips, then accepts `digits`,
`digits.digits`, `.digits` or `digits.`; everything else raises
`ValueError` (in particular strings containing a slash). -/
def floatParse (s : List Char) : Except PyErr ℚ :=
  let cs := pyStrip s
  let p1 := takeRun Char.isDigit cs
  match p1.2 with
  | [] =>
    if p1.1.isEmpty then Except.error PyErr.valueError
    else Except.ok (digitsToNat p1.1 : ℚ)
  | '.' :: r2 =>
    let p2 := takeRun Char.isDigit r2
    if p2.2.isEmpty && !(p1.1.isEmpty && p2.1.isEmpty) then
      Except.ok ((digitsToNat p1.1 : ℚ) + (digitsToNat p2.1 : ℚ) / 10 ^ p2.1.length)
    else Except.error PyErr.valueError
  | _ => Except.error PyErr.valueError

/-- Python `Fraction(s)` on the strings reachable here: `a/b` (raising
`ZeroDivisionError` when `b = 0`), an integer, or a decimal string;
anything else raises `ValueError`. -/
def fractionParse (s : List Char) : Except PyErr ℚ :=
  let p1 := takeRun Char.isDigit s
  match p1.2 with
  | [] =>
    if p1.1.isEmpty then Except.error PyErr.valueError
    else Except.ok (digitsToNat p1.1 : ℚ)
  | '/' :: r2 =>
    let p2 := takeRun Char.isDigit r2
    if p1.1.isEmpty || p2.1.isEmpty || !p2.2.isEmpty then Except.error PyErr.valueError
    else if digitsToNat p2.1 = 0 then Except.error PyErr.zeroDivision
    else Except.ok ((digitsToNat p1.1 : ℚ) / (digitsToNat p2.1 : ℚ))
  | '.' :: r2 =>
    let p2 := takeRun Char.isDigit r2
    if p2.2.isEmpty && !(p1.1.isEmpty && p2.1.isEmpty) then
      Except.ok ((digitsToNat p1.1 : ℚ) + (digitsToNat p2.1 : ℚ) / 10 ^ p2.1.length)
    else Except.error PyErr.valueError
  | _ => Except.error PyErr.valueError

/-- Source lines 14-22, `parse_fractional_inches`: strip; a value with an
interior space is a mixed number `whole frac` (via `str.split()`), a value
with a slash is a fraction, anything else goes to `float`. -/
def parse_fractional_inches (value : List Char) : Except PyErr ℚ :=
  let v := pyStrip value
  if v.any (fun c => c = ' ') then
    match pySplitWs v with
    | [whole, frac] =>
      match floatParse whole with
      | Except.error e => Except.error e
      | Except.ok a =>
        match fractionParse frac with
        | Except.error e => Except.error e
        | Except.ok b => Except.ok (a + b)
    | _ => Except.error PyErr.valueError
  else if v.any (fun c => c = '/') then fractionParse v
  else floatParse v

/-- Characters of the dimension character class `[0-9\/\.\s]` in the
cut-line pattern (source line 25). -/
def isClassCh (c : Char) : Bool :=
  c.isDigit || c = '/' || c = '.' || c.isWhitespace

/-- Optional quantity head `(?:([\d]+)\s*@\s*)?` of the cut-line pattern:
returns the quantity (1 when absent) and the remaining characters. When
the digits are not followed by `@`, no backtracking alternative of the
full pattern can succeed with a quantity, so matching restarts at the
original position without one. -/
def matchQty (cs : List Char) : ℕ × List Char :=
  let d := takeRun Char.isDigit cs
  match d.1 with
  | [] => (1, cs)
  | _ =>
    match d.2.dropWhile Char.isWhitespace with
    | '@' :: r3 => (digitsToNat d.1, r3.dropWhile Char.isWhitespace)
    | _ => (1, cs)

/-- Captured groups of a successful cut-line match. -/
structure MatchResult where
  rawLength : List Char
  rawWidth : List Char
  grain : Option Grain
  quantity : ℕ

/-- True when the last character of the run is whitespace. -/
def lastIsWs (t : List Char) : Bool :=
  match t.getLast? with
  | some c => c.isWhitespace
  | none => false

/-- Grain option from the captured `[LW]` letter. -/
def charGrain (c : Char) : Option Grain :=
  if c = 'L' then some Grain.L else if c = 'W' then some Grain.W else none

/-- Deterministic evaluation of
`re.match(r'(?:([\d]+)\s*@\s*)?([0-9\/\.\s]+)\s*[xX]\s*([0-9\/\.\s]+)(?:\s+([LW]))?', line)`
(source line 25-26).  Since `x`, `X`, `@`, `L`, `W` are outside the
dimension class, the greedy class runs are forced:  group 2 is the maximal
class run and must be followed by `x`/`X`; group 3 shares the maximal
class run after it with the surrounding `\s*`/`\s+`, so the optional grain
group matches exactly when the character after the run is `L`/`W`, the run
ends in whitespace and has length at least 2.  Width whitespace is
normalized away again by `parse_fractional_inches`, so only the interior
characters of the captured groups are observable. -/
def cutLineMatch (cs : List Char) : Option MatchResult :=
  let q := matchQty cs
  let g2p := takeRun isClassCh q.2
  match g2p.1 with
  | [] => none
  | g2 =>
    match g2p.2 with
    | c :: r2 =>
      if c = 'x' || c = 'X' then
        let tp := takeRun isClassCh r2
        match tp.1 with
        | [] => none
        | t =>
          match tp.2 with
          | g :: _ =>
            if (g = 'L' || g = 'W') && decide (2 ≤ t.length) && lastIsWs t then
              some ⟨g2, t.dropLast, charGrain g, q.1⟩
            else some ⟨g2, t, none, q.1⟩
          | [] => some ⟨g2, t, none, q.1⟩
      else none
    | [] => none

/-- Source lines 24-36, `parse_cut_line`: match the pattern against the
stripped line (`ValueError` when it fails), then parse length and width;
the quantity defaults to 1 and the grain letter is kept. -/
def parse_cut_line (line : List Char) : Except PyErr ParsedLine :=
  match cutLineMatch (pyStrip line) with
  | none => Except.error PyErr.valueError
  | some m =>
    match parse_fractional_inches m.rawLength with
    | Except.error e => Except.error e
    | Except.ok len =>
      match parse_fractional_inches m.rawWidth with
      | Except.error e => Except.error e
      | Except.ok wid => Except.ok ⟨len, wid, m.grain, m.quantity⟩

/-- Loop body of `parse_cut_list` (source lines 38-49): blank lines are
skipped; a line raising `ValueError` is skipped with a warning; each
successful line contributes `quantity` copies of its cut.  Only
`ValueError` is caught, so a `ZeroDivisionError` (denominator 0 in a
fraction) propagates and aborts the whole batch. -/
def parseLinesAux : List (List Char) → Except PyErr (List Cut)
  | [] => Except.ok []
  | l :: ls =>
    if pyStrip l = [] then parseLinesAux ls
    else
      match parse_cut_line l with
      | Except.ok p =>
        match parseLinesAux ls with
        | Except.ok rest =>
          Except.ok (List.replicate p.quantity ⟨p.length, p.width, p.grain⟩ ++ rest)
        | Except.error e => Except.error e
      | Except.error PyErr.valueError => parseLinesAux ls
      | Except.error PyErr.zeroDivision => Except.error PyErr.zeroDivision

/-- Source lines 38-49, `parse_cut_list`: strip the text, split it into
lines, and process each line. -/
def parse_cut_list (text : List Char) : Except PyErr (List Cut) :=
  parseLinesAux (pySplitLines (pyStrip text))

/-- Free rectangle of a sheet, in scaled (hundredths of an inch) sheet
coordinates: origin top-left, x rightward, y downward. -/
structure FRect where
  x : ℤ
  y : ℤ
  w : ℤ
  h : ℤ
deriving DecidableEq

/-- Committed placement: piece id and the footprint actually used
(scaled, kerf included). -/
structure PRect where
  rid : ℕ
  x : ℤ
  y : ℤ
  w : ℤ
  h : ℤ
deriving DecidableEq

/-- One sheet: its committed placements and its free rectangles. -/
structure Bin where
  placed : List PRect
  free : List FRect
deriving DecidableEq

/-- Packing state: the scaled bin dimensions, the open-sheet cap, and the
open sheets in opening order. -/
structure PackState where
  binW : ℤ
  binH : ℤ
  maxBins : ℕ
  bins : List Bin
deriving DecidableEq

/-- Candidate placement: sheet index, hosting free rectangle, and the
oriented footprint. -/
structure Cand where
  si : ℕ
  rect : FRect
  pw : ℤ
  ph : ℤ
deriving DecidableEq

/-- Modelled from the spec: the two orientations tried for a footprint.
Since the source calls `newPacker(rotation=True)` (line 59), both
orientations are allowed for every rectangle. -/
def orientPairs (w h : ℤ) : List (ℤ × ℤ) := [(w, h), (h, w)]

/-- Modelled from the spec (section 4.2, `findCandidates`): the oriented
footprint fits a free rectangle when it is at most as wide and as tall. -/
def binCands (si : ℕ) (w h : ℤ) (b : Bin) : List Cand :=
  b.free.flatMap fun r =>
    (orientPairs w h).filterMap fun o =>
      if o.1 ≤ r.w ∧ o.2 ≤ r.h then some ⟨si, r, o.1, o.2⟩ else none

/-- Modelled from the spec (section 4.3, step 1): candidates of every
currently open sheet, in sheet-open order. -/
def allCandsFrom (w h : ℤ) : ℕ → List Bin → List Cand
  | _, [] => []
  | si, b :: bs => binCands si w h b ++ allCandsFrom w h (si + 1) bs

/-- Leftover area of a candidate (spec section 4.3, step 2). -/
def candLeftArea (c : Cand) : ℤ := c.rect.w * c.rect.h - c.pw * c.ph

/-- Shorter leftover edge of a candidate (spec section 4.3, step 2). -/
def candShortSide (c : Cand) : ℤ := min (c.rect.w - c.pw) (c.rect.h - c.ph)

/-- Strict preference between candidates: smaller leftover area, then
smaller short leftover edge.  Remaining ties keep the earlier candidate
(lower sheet index, then free-rectangle scan order, then the as-given
orientation), realizing the deterministic tiebreaks of spec section 4.3. -/
def candBetter (a b : Cand) : Bool :=
  decide (candLeftArea a < candLeftArea b) ||
    (decide (candLeftArea a = candLeftArea b) && decide (candShortSide a < candShortSide b))

/-- Modelled from the spec (section 4.3, step 2): best-area-fit selection
over the candidate list, first candidate winning ties. -/
def selectBest (l : List Cand) : Option Cand :=
  l.foldl
    (fun acc c =>
      match acc with
      | none => some c
      | some b => if candBetter c b then some c else some b)
    none

/-- True when the free rectangle and the placement overlap in positive
area. -/
def overlapsB (f : FRect) (p : PRect) : Bool :=
  decide (max f.x p.x < min (f.x + f.w) (p.x + p.w)) &&
    decide (max f.y p.y < min (f.y + f.h) (p.y + p.h))

/-- Modelled from the spec (section 4.2, `commit`): maximal-rectangles
split of one free rectangle against a committed placement.  A free
rectangle overlapping the placement in positive area is replaced by its
up-to-four leftovers (the spec's right/below successors are exactly the
leftovers of the chosen rectangle, whose corner hosts the placement; the
left/top leftovers are empty there), realizing the data-model invariant of
spec section 3 that free rectangles never overlap committed placements;
zero-area leftovers are discarded. -/
def splitAgainst (p : PRect) (f : FRect) : List FRect :=
  if overlapsB f p then
    ([⟨f.x, f.y, p.x - f.x, f.h⟩,
      ⟨p.x + p.w, f.y, f.x + f.w - (p.x + p.w), f.h⟩,
      ⟨f.x, f.y, f.w, p.y - f.y⟩,
      ⟨f.x, p.y + p.h, f.w, f.y + f.h - (p.y + p.h)⟩] : List FRect).filter
      (fun r => decide (0 < r.w) && decide (0 < r.h))
  else [f]

/-- True when rectangle `b` is fully contained in rectangle `a`. -/
def containsR (a b : FRect) : Bool :=
  decide (a.x ≤ b.x) && decide (a.y ≤ b.y) &&
    decide (b.x + b.w ≤ a.x + a.w) && decide (b.y + b.h ≤ a.y + a.h)

/-- List paired with positions, starting at `k`. -/
def enumFrom (k : ℕ) : List α → List (ℕ × α)
  | [] => []
  | a :: as => (k, a) :: enumFrom (k + 1) as

/-- Modelled from the spec (section 4.2): discard any free rectangle with
zero area, then any fully contained in another free rectangle. -/
def pruneFree (l : List FRect) : List FRect :=
  let l1 := l.filter fun r => decide (0 < r.w) && decide (0 < r.h)
  (enumFrom 0 l1).filterMap fun ir =>
    if (enumFrom 0 l1).any (fun js => decide (js.1 ≠ ir.1) && containsR js.2 ir.2) then none
    else some ir.2

/-- Modelled from the spec (section 4.2, `commit`): record the placement
and rebuild the sheet's free set by splitting every free rectangle against
it, then pruning. -/
def commitBin (p : PRect) (b : Bin) : Bin :=
  ⟨b.placed ++ [p], pruneFree (b.free.flatMap (splitAgainst p))⟩

/-- Commit a placement on the sheet at the given index. -/
def commitAt : List Bin → ℕ → PRect → List Bin
  | [], _, _ => []
  | b :: bs, 0, p => commitBin p b :: bs
  | b :: bs, n + 1, p => b :: commitAt bs n p

/-- Modelled from the spec (section 4.4): a freshly opened sheet has one
full-area free rectangle. -/
def newBin (w h : ℤ) : Bin := ⟨[], [⟨0, 0, w, h⟩]⟩

/-- Modelled from the spec (section 4.3, steps 1-5, and section 4.4):
place one piece.  Select the best candidate across all open sheets and
commit it; otherwise, if fewer sheets are open than the cap, open a new
sheet and retry against it alone; otherwise the piece stays unplaced and
the run continues.  There is no unplaced record anywhere in the output --
the source keeps none. -/
def placePiece (st : PackState) (rid : ℕ) (w h : ℤ) : PackState :=
  match selectBest (allCandsFrom w h 0 st.bins) with
  | some c => { st with bins := commitAt st.bins c.si ⟨rid, c.rect.x, c.rect.y, c.pw, c.ph⟩ }
  | none =>
    if st.bins.length < st.maxBins then
      match selectBest (allCandsFrom w h 0 [newBin st.binW st.binH]) with
      | some c =>
        { st with
          bins := st.bins ++ [commitBin ⟨rid, c.rect.x, c.rect.y, c.pw, c.ph⟩ (newBin st.binW st.binH)] }
      | none => { st with bins := st.bins ++ [newBin st.binW st.binH] }
    else st

/-- Source lines 63-73: the rectangle handed to the packer for piece `i`:
width and height are the kerf-padded scaled dimensions
(`w = scale_up(width + kerf)`, `h = scale_up(length + kerf)`), pre-swapped
when a grain preference would otherwise leave the longer side across the
grain axis (`grain == "L" and width > length`, or
`grain == "W" and length > width`). -/
def buildRects (cuts : List Cut) (kerf : ℚ) : List (ℕ × ℤ × ℤ) :=
  (enumFrom 0 cuts).map fun ic =>
    let w := scale_up (ic.2.width + kerf)
    let h := scale_up (ic.2.length + kerf)
    if (ic.2.grain = some Grain.L ∧ ic.2.width > ic.2.length) ∨
        (ic.2.grain = some Grain.W ∧ ic.2.length > ic.2.width) then
      (ic.1, h, w)
    else (ic.1, w, h)

/-- Sorting key relation of spec section 4.3: decreasing footprint area,
ties by decreasing longer footprint dimension, then by input order. -/
def rectLEb (a b : ℕ × ℤ × ℤ) : Bool :=
  decide (b.2.1 * b.2.2 < a.2.1 * a.2.2) ||
    (decide (a.2.1 * a.2.2 = b.2.1 * b.2.2) &&
      (decide (max b.2.1 b.2.2 < max a.2.1 a.2.2) ||
        (decide (max a.2.1 a.2.2 = max b.2.1 b.2.2) && decide (a.1 ≤ b.1))))

/-- Propositional form of the sorting relation. -/
def rectLE (a b : ℕ × ℤ × ℤ) : Prop := rectLEb a b = true

instance : DecidableRel rectLE := fun a b => instDecidableEqBool (rectLEb a b) true

/-- Modelled from the spec (section 4.3): pieces are sorted once, before
any placement, by decreasing footprint area with deterministic tiebreaks. -/
def sortRects (l : List (ℕ × ℤ × ℤ)) : List (ℕ × ℤ × ℤ) :=
  List.insertionSort rectLE l

/-- Initial packing state: scaled sheet dimensions (source lines 56-57:
`bin_width = scale_up(sheet_width)`, `bin_height = scale_up(sheet_length)`)
and the open-sheet cap of 100 that the source hardcodes by calling
`packer.add_bin` 100 times (lines 60-61). -/
def initState (sheet_length sheet_width : ℚ) : PackState :=
  ⟨scale_up sheet_width, scale_up sheet_length, 100, []⟩

/-- Source lines 52-76, `run_layout_optimizer`: scale the sheet, build the
kerf-padded (and grain pre-swapped) rectangles, and pack them.  The
`grain_direction` argument is accepted (source line 52) but never used in
the body.  The packing itself is modelled from the spec (sections
4.2-4.4), since the source delegates it to the external `rectpack` library
with `rotation=True`. -/
def run_layout_optimizer (cuts : List Cut) (sheet_length sheet_width kerf : ℚ)
    (grain_direction : List Char) : PackState :=
  (sortRects (buildRects cuts kerf)).foldl
    (fun st t => placePiece st t.1 t.2.1 t.2.2)
    (initState sheet_length sheet_width)

/-- All placed piece ids across all sheets, in sheet order. -/
def ridsOf (bins : List Bin) : List ℕ :=
  bins.flatMap fun b => b.placed.map PRect.rid

/-- One row of the CSV summary table (source lines 149-157). -/
structure Row where
  sheet : ℕ
  x : ℚ
  y : ℚ
  width : ℚ
  height : ℚ
  rotated : Bool
  grainPref : Option Grain
deriving DecidableEq

/-- Source lines 132-157: one summary row for a placed rectangle on sheet
number `sheet_num` (0-based; the row records `sheet_num + 1`).  Width and
height are unscaled and stripped of kerf, rounded to 4 decimals; the
rotated flag is inferred by comparing them with the original cut's
dimensions within an absolute tolerance of 0.01. -/
def rowOf (cuts : List Cut) (kerf : ℚ) (sheet_num : ℕ) (p : PRect) : Row :=
  let cut := cuts.getD p.rid defaultCut
  let width := roundTo 4 ((p.w : ℚ) / 100 - kerf)
  let height := roundTo 4 ((p.h : ℚ) / 100 - kerf)
  let rotated := !(decide (|width - cut.width| < 1/100) && decide (|height - cut.length| < 1/100))
  ⟨sheet_num + 1, roundTo 4 ((p.x : ℚ) / 100), roundTo 4 ((p.y : ℚ) / 100),
    width, height, rotated, cut.grain⟩

/-- Rows of all sheets from `sheet_num` on. -/
def summaryRows (cuts : List Cut) (kerf : ℚ) : ℕ → List Bin → List Row
  | _, [] => []
  | n, b :: bs => b.placed.map (rowOf cuts kerf n) ++ summaryRows cuts kerf (n + 1) bs

/-- Source lines 129-159, `generate_layout_summary`: the summary table has
exactly one row per placed rectangle, and nothing else -- in particular no
entry of any kind for pieces the packer did not place. -/
def generate_layout_summary (packer : PackState) (cuts : List Cut) (kerf : ℚ) : List Row :=
  summaryRows cuts kerf 0 packer.bins

/-- Source lines 100-112 of `draw_layout`: the rotated flag drawn for each
placed rectangle, inferred from the display-rounded recovered dimensions
(`rounded((w / 100) - kerf)`, two decimals with a `1e-6` bias) compared to
the original cut within 0.01. -/
def draw_rotated_flags (packer : PackState) (cuts : List Cut) (kerf : ℚ) : List (List Bool) :=
  packer.bins.map fun b =>
    b.placed.map fun p =>
      let disp_w := rounded ((p.w : ℚ) / 100 - kerf)
      let disp_h := rounded ((p.h : ℚ) / 100 - kerf)
      let cut := cuts.getD p.rid defaultCut
      !(decide (|disp_w - cut.width| < 1/100) && decide (|disp_h - cut.length| < 1/100))

/-- Forced-orientation rule of spec section 4.1 on a committed placement:
with the sheet's length axis vertical (placement height `h`), grain along
the length requires the placed height to be at least the placed width, and
grain along the width the reverse; no constraint without a grain
preference. -/
def grainConsistent (cut : Cut) (p : PRect) : Prop :=
  match cut.grain with
  | none => True
  | some Grain.L => p.w ≤ p.h
  | some Grain.W => p.h ≤ p.w

instance (cut : Cut) (p : PRect) : Decidable (grainConsistent cut p) := by
  unfold grainConsistent
  match cut.grain with
  | none => exact inferInstance
  | some Grain.L => exact inferInstance
  | some Grain.W => exact inferInstance

/-- Containment of a placement in the scaled sheet bounds (spec section
3): `0 ≤ x`, `x + w ≤ binW`, `0 ≤ y`, `y + h ≤ binH`. -/
def inBounds (W H : ℤ) (p : PRect) : Prop :=
  0 ≤ p.x ∧ 0 ≤ p.y ∧ p.x + p.w ≤ W ∧ p.y + p.h ≤ H

instance (W H : ℤ) (p : PRect) : Decidable (inBounds W H p) := by
  unfold inBounds; exact inferInstance

/-- Containment of a free rectangle in the scaled sheet bounds. -/
def inBoundsF (W H : ℤ) (f : FRect) : Prop :=
  0 ≤ f.x ∧ 0 ≤ f.y ∧ f.x + f.w ≤ W ∧ f.y + f.h ≤ H

/-- Two placements do not overlap in area: their open interiors are
disjoint (degenerate rectangles have no area). -/
def noOverlap (p q : PRect) : Prop :=
  min (p.x + p.w) (q.x + q.w) ≤ max p.x q.x ∨ min (p.y + p.h) (q.y + q.h) ≤ max p.y q.y

instance (p q : PRect) : Decidable (noOverlap p q) := by
  unfold noOverlap; exact inferInstance

/-- A free rectangle and a placement do not overlap in area. -/
def noOverlapFP (f : FRect) (p : PRect) : Prop :=
  min (f.x + f.w) (p.x + p.w) ≤ max f.x p.x ∨ min (f.y + f.h) (p.y + p.h) ≤ max f.y p.y

/-- Interval containment of one free rectangle in another. -/
def subF (a b : FRect) : Prop :=
  b.x ≤ a.x ∧ a.x + a.w ≤ b.x + b.w ∧ b.y ≤ a.y ∧ a.y + a.h ≤ b.y + b.h

/-- Interval containment of a placement in a free rectangle. -/
def subPF (p : PRect) (f : FRect) : Prop :=
  f.x ≤ p.x ∧ p.x + p.w ≤ f.x + f.w ∧ f.y ≤ p.y ∧ p.y + p.h ≤ f.y + f.h

/-- Soundness invariant of one sheet: free rectangles are in bounds and
area-disjoint from every placement; placements are in bounds and pairwise
area-disjoint. -/
def InvBin (W H : ℤ) (b : Bin) : Prop :=
  (∀ f ∈ b.free, inBoundsF W H f) ∧
    (∀ f ∈ b.free, ∀ p ∈ b.placed, noOverlapFP f p) ∧
    (∀ p ∈ b.placed, inBounds W H p) ∧
    b.placed.Pairwise noOverlap

theorem pyRound_sub_abs_le (q : ℚ) : |(pyRound q : ℚ) - q| ≤ 1/2 := by
  have h1 : (⌊q⌋ : ℚ) ≤ q := Int.floor_le q
  have h2 : q < ⌊q⌋ + 1 := Int.lt_floor_add_one q
  unfold pyRound
  split_ifs with ha hb hc
  · rw [abs_le]; constructor <;> linarith
  · rw [abs_le]; push_cast; constructor <;> linarith
  · rw [abs_le]; constructor <;> linarith
  · rw [abs_le]; push_cast; constructor <;> linarith

theorem roundTo_sub_abs_le (n : ℕ) (q : ℚ) : |roundTo n q - q| ≤ 1 / (2 * 10 ^ n) := by
  have h10 : (0 : ℚ) < 10 ^ n := by positivity
  have h := pyRound_sub_abs_le (q * 10 ^ n)
  unfold roundTo
  rw [show (pyRound (q * 10 ^ n) : ℚ) / 10 ^ n - q
      = ((pyRound (q * 10 ^ n) : ℚ) - q * 10 ^ n) / 10 ^ n by field_simp; ring]
  rw [abs_div, abs_of_pos h10]
  rw [div_le_iff₀ h10]
  rw [show 1 / (2 * 10 ^ n) * 10 ^ n = (1 : ℚ) / 2 by field_simp; ring]
  exact h

theorem pyRound_intCast (k : ℤ) : pyRound (k : ℚ) = k := by
  unfold pyRound
  rw [Int.floor_intCast]
  rw [if_pos]
  rw [sub_self]
  norm_num

theorem pyRound_eq_of_gt_half (q : ℚ) (k : ℤ) (h0 : (k : ℚ) + 1/2 < q) (h1 : q < k + 1) :
    pyRound q = k + 1 := by
  have hf : ⌊q⌋ = k := Int.floor_eq_iff.mpr ⟨by linarith, by push_cast; linarith⟩
  unfold pyRound
  rw [hf, if_neg (by push_cast; linarith), if_pos (by push_cast; linarith)]

theorem pyRound_eq_of_lt_half (q : ℚ) (k : ℤ) (h0 : (k : ℚ) ≤ q) (h1 : q < k + 1/2) :
    pyRound q = k := by
  have hf : ⌊q⌋ = k := Int.floor_eq_iff.mpr ⟨h0, by push_cast; linarith⟩
  unfold pyRound
  rw [hf, if_pos (by push_cast; linarith)]

theorem pyRound_eq_of_half_odd (q : ℚ) (k : ℤ) (hq : q = k + 1/2) (he : k % 2 = 1) :
    pyRound q = k + 1 := by
  have hf : ⌊q⌋ = k := Int.floor_eq_iff.mpr ⟨by rw [hq]; linarith, by rw [hq]; push_cast; linarith⟩
  unfold pyRound
  rw [hf, if_neg (by rw [hq]; push_cast; linarith), if_neg (by rw [hq]; push_cast; linarith),
    if_neg (by omega)]

theorem pyRound_eq_of_half_even (q : ℚ) (k : ℤ) (hq : q = k + 1/2) (he : k % 2 = 0) :
    pyRound q = k := by
  have hf : ⌊q⌋ = k := Int.floor_eq_iff.mpr ⟨by rw [hq]; linarith, by rw [hq]; push_cast; linarith⟩
  unfold pyRound
  rw [hf, if_neg (by rw [hq]; push_cast; linarith), if_neg (by rw [hq]; push_cast; linarith),
    if_pos he]

theorem scale_up_eq_intCast (q : ℚ) (k : ℤ) (h : q * 100 = (k : ℚ)) : scale_up q = k := by
  unfold scale_up
  rw [h, pyRound_intCast]

theorem scale_up_eq_of_half_odd (q : ℚ) (k : ℤ) (h : q * 100 = (k : ℚ) + 1/2) (he : k % 2 = 1) :
    scale_up q = k + 1 := by
  unfold scale_up
  exact pyRound_eq_of_half_odd _ k h he

theorem run_eval (cuts : List Cut) (sl sw k : ℚ) (g : List Char) (L : List (ℕ × ℤ × ℤ))
    (BW BH : ℤ) (h1 : buildRects cuts k = L) (h2 : scale_up sw = BW) (h3 : scale_up sl = BH) :
    run_layout_optimizer cuts sl sw k g =
      List.foldl (fun st t => placePiece st t.1 t.2.1 t.2.2) (PackState.mk BW BH 100 [])
        (sortRects L) := by
  unfold run_layout_optimizer initState
  rw [h1, h2, h3]

theorem buildRects_one (c : Cut) (k : ℚ) (w h : ℤ)
    (hw : scale_up (c.width + k) = w) (hh : scale_up (c.length + k) = h)
    (hg : ¬ ((c.grain = some Grain.L ∧ c.width > c.length) ∨
      (c.grain = some Grain.W ∧ c.length > c.width))) :
    buildRects [c] k = [(0, w, h)] := by
  simp only [buildRects, enumFrom, List.map]
  rw [if_neg hg, hw, hh]

theorem floatParse_nonneg (s : List Char) (q : ℚ) (h : floatParse s = Except.ok q) : 0 ≤ q := by
  simp only [floatParse] at h
  split at h
  · split at h
    · exact absurd h (by simp)
    · simp only [Except.ok.injEq] at h
      subst h
      positivity
  · split at h
    · simp only [Except.ok.injEq] at h
      subst h
      positivity
    · exact absurd h (by simp)
  · exact absurd h (by simp)

theorem fractionParse_nonneg (s : List Char) (q : ℚ) (h : fractionParse s = Except.ok q) :
    0 ≤ q := by
  simp only [fractionParse] at h
  split at h
  · split at h
    · exact absurd h (by simp)
    · simp only [Except.ok.injEq] at h
      subst h
      positivity
  · split at h
    · exact absurd h (by simp)
    · split at h
      · exact absurd h (by simp)
      · simp only [Except.ok.injEq] at h
        subst h
        positivity
  · split at h
    · simp only [Except.ok.injEq] at h
      subst h
      positivity
    · exact absurd h (by simp)
  · exact absurd h (by simp)

theorem parse_fractional_inches_nonneg (v : List Char) (q : ℚ)
    (h : parse_fractional_inches v = Except.ok q) : 0 ≤ q := by
  simp only [parse_fractional_inches] at h
  split at h
  · split at h
    · rename_i whole frac
      split at h
      · exact absurd h (by simp)
      · rename_i a ha
        split at h
        · exact absurd h (by simp)
        · rename_i b hb
          simp only [Except.ok.injEq] at h
          subst h
          exact add_nonneg (floatParse_nonneg _ _ ha) (fractionParse_nonneg _ _ hb)
    · exact absurd h (by simp)
  · split at h
    · exact fractionParse_nonneg _ _ h
    · exact floatParse_nonneg _ _ h

theorem selectBest_go (l : List Cand) (acc : Option Cand) (c : Cand)
    (h : List.foldl
      (fun a x =>
        match a with
        | none => some x
        | some b => if candBetter x b then some x else some b)
      acc l = some c) :
    acc = some c ∨ c ∈ l := by
  induction l generalizing acc with
  | nil => exact Or.inl h
  | cons x xs ih =>
    rcases ih _ h with hacc | hmem
    · cases acc with
      | none =>
        simp only at hacc
        injection hacc with hxc
        subst hxc
        exact Or.inr (List.mem_cons_self _ _)
      | some b =>
        simp only at hacc
        split at hacc
        · injection hacc with hxc
          subst hxc
          exact Or.inr (List.mem_cons_self _ _)
        · exact Or.inl hacc
    · exact Or.inr (List.mem_cons_of_mem _ hmem)

theorem selectBest_mem (l : List Cand) (c : Cand) (h : selectBest l = some c) : c ∈ l := by
  rcases selectBest_go l none c h with h | h
  · exact absurd h (by simp)
  · exact h

theorem allCandsFrom_mem (w h : ℤ) (k : ℕ) (bins : List Bin) (c : Cand)
    (hc : c ∈ allCandsFrom w h k bins) :
    k ≤ c.si ∧ ∃ b, bins.get? (c.si - k) = some b ∧ c.rect ∈ b.free ∧
      ((c.pw, c.ph) = (w, h) ∨ (c.pw, c.ph) = (h, w)) ∧ c.pw ≤ c.rect.w ∧ c.ph ≤ c.rect.h := by
  induction bins generalizing k with
  | nil => simp [allCandsFrom] at hc
  | cons b bs ih =>
    simp only [allCandsFrom, List.mem_append] at hc
    rcases hc with hc | hc
    · simp only [binCands, List.mem_flatMap, List.mem_filterMap] at hc
      obtain ⟨r, hr, o, ho, heq⟩ := hc
      split at heq
      · rename_i hfit
        cases heq
        obtain ⟨ow, oh⟩ := o
        simp only [orientPairs, List.mem_cons, List.not_mem_nil, or_false,
          Prod.mk.injEq] at ho
        refine ⟨le_refl _, b, ?_, hr, ?_, hfit.1, hfit.2⟩
        · simp
        · rcases ho with ⟨rfl, rfl⟩ | ⟨rfl, rfl⟩
          · exact Or.inl rfl
          · exact Or.inr rfl
      · exact absurd heq (by simp)
    · obtain ⟨hk, b0, hget, hrest⟩ := ih (k + 1) hc
      refine ⟨by omega, b0, ?_, hrest⟩
      rw [show c.si - k = (c.si - (k + 1)) + 1 by omega]
      simpa using hget

theorem enumFrom_mem_snd (l : List α) (k : ℕ) (ia : ℕ × α) (h : ia ∈ enumFrom k l) :
    ia.2 ∈ l := by
  induction l generalizing k with
  | nil => simp [enumFrom] at h
  | cons a as ih =>
    simp only [enumFrom, List.mem_cons] at h
    rcases h with rfl | h
    · simp
    · exact List.mem_cons_of_mem _ (ih _ h)

theorem splitAgainst_mem (p : PRect) (f g : FRect) (hg : g ∈ splitAgainst p f) :
    subF g f ∧ noOverlapFP g p := by
  unfold splitAgainst at hg
  split at hg
  · rename_i hov
    simp only [overlapsB, Bool.and_eq_true, decide_eq_true_eq] at hov
    have hgm := (List.mem_filter.mp hg).1
    have hpos := (List.mem_filter.mp hg).2
    simp only [Bool.and_eq_true, decide_eq_true_eq] at hpos
    simp only [List.mem_cons, List.not_mem_nil, or_false] at hgm
    unfold subF noOverlapFP
    rcases hgm with rfl | rfl | rfl | rfl <;> simp only at hpos ⊢ <;> omega
  · rename_i hov
    simp only [overlapsB, Bool.and_eq_true, decide_eq_true_eq] at hov
    push_neg at hov
    simp only [List.mem_singleton] at hg
    subst hg
    unfold subF noOverlapFP
    omega

theorem pruneFree_mem (l : List FRect) (r : FRect) (h : r ∈ pruneFree l) : r ∈ l := by
  unfold pruneFree at h
  simp only [List.mem_filterMap] at h
  obtain ⟨ir, hir, heq⟩ := h
  split at heq
  · exact absurd heq (by simp)
  · cases heq
    have := enumFrom_mem_snd _ 0 ir hir
    exact (List.mem_filter.mp this).1

theorem commitBin_free_mem (p : PRect) (b : Bin) (g : FRect) (h : g ∈ (commitBin p b).free) :
    ∃ f ∈ b.free, g ∈ splitAgainst p f := by
  unfold commitBin at h
  simp only at h
  exact List.mem_flatMap.mp (pruneFree_mem _ _ h)

theorem subF_noOverlapFP (a f : FRect) (q : PRect) (h1 : subF a f) (h2 : noOverlapFP f q) :
    noOverlapFP a q := by
  unfold subF at h1
  unfold noOverlapFP at h2 ⊢
  omega

theorem commitBin_inv (W H : ℤ) (b : Bin) (r : FRect) (p : PRect)
    (hb : InvBin W H b) (hr : r ∈ b.free) (hsub : subPF p r) :
    InvBin W H (commitBin p b) := by
  obtain ⟨hFb, hFP, hPb, hPP⟩ := hb
  refine ⟨?_, ?_, ?_, ?_⟩
  · intro g hg
    obtain ⟨f, hf, hgf⟩ := commitBin_free_mem p b g hg
    obtain ⟨hs, _⟩ := splitAgainst_mem p f g hgf
    have hfb := hFb f hf
    unfold inBoundsF at hfb ⊢
    unfold subF at hs
    omega
  · intro g hg q hq
    obtain ⟨f, hf, hgf⟩ := commitBin_free_mem p b g hg
    obtain ⟨hs, hnp⟩ := splitAgainst_mem p f g hgf
    have hq2 : q ∈ b.placed ++ [p] := hq
    rw [List.mem_append, List.mem_singleton] at hq2
    rcases hq2 with hq2 | rfl
    · exact subF_noOverlapFP g f q hs (hFP f hf q hq2)
    · exact hnp
  · intro q hq
    have hq2 : q ∈ b.placed ++ [p] := hq
    rw [List.mem_append, List.mem_singleton] at hq2
    rcases hq2 with hq2 | rfl
    · exact hPb q hq2
    · have hrb := hFb r hr
      unfold inBoundsF at hrb
      unfold inBounds
      unfold subPF at hsub
      omega
  · show List.Pairwise noOverlap (b.placed ++ [p])
    rw [List.pairwise_append]
    refine ⟨hPP, List.pairwise_singleton _ _, ?_⟩
    intro a ha q hq
    rw [List.mem_singleton] at hq
    subst hq
    have h1 := hFP r hr a ha
    unfold noOverlapFP at h1
    unfold subPF at hsub
    unfold noOverlap
    omega

theorem commitAt_mem (bins : List Bin) (i : ℕ) (p : PRect) (b' : Bin)
    (h : b' ∈ commitAt bins i p) :
    b' ∈ bins ∨ ∃ b, bins.get? i = some b ∧ b' = commitBin p b := by
  induction bins generalizing i with
  | nil => simp [commitAt] at h
  | cons b bs ih =>
    cases i with
    | zero =>
      simp only [commitAt, List.mem_cons] at h
      rcases h with rfl | h
      · exact Or.inr ⟨b, by simp, rfl⟩
      · exact Or.inl (List.mem_cons_of_mem _ h)
    | succ n =>
      simp only [commitAt, List.mem_cons] at h
      rcases h with rfl | h
      · exact Or.inl (List.mem_cons_self _ _)
      · rcases ih n h with h | ⟨b0, hget, rfl⟩
        · exact Or.inl (List.mem_cons_of_mem _ h)
        · exact Or.inr ⟨b0, by simpa using hget, rfl⟩

theorem newBin_inv (W H : ℤ) : InvBin W H (newBin W H) := by
  refine ⟨?_, ?_, ?_, ?_⟩
  · intro f hf
    simp only [newBin, List.mem_singleton] at hf
    subst hf
    simp [inBoundsF]
  · intro f _ q hq
    simp [newBin] at hq
  · intro q hq
    simp [newBin] at hq
  · simp [newBin]

theorem subPF_build (r : FRect) (rid : ℕ) (pw ph : ℤ) (h1 : pw ≤ r.w) (h2 : ph ≤ r.h) :
    subPF ⟨rid, r.x, r.y, pw, ph⟩ r := by
  unfold subPF
  simp only
  omega

theorem placePiece_inv (st : PackState) (rid : ℕ) (w h : ℤ)
    (hst : ∀ b ∈ st.bins, InvBin st.binW st.binH b) :
    ∀ b ∈ (placePiece st rid w h).bins, InvBin st.binW st.binH b := by
  intro b hb
  unfold placePiece at hb
  split at hb
  · rename_i c hsel
    simp only at hb
    rcases commitAt_mem _ _ _ _ hb with hmem | ⟨b0, hget, rfl⟩
    · exact hst b hmem
    · obtain ⟨_, b1, hget1, hrect, _, hf1, hf2⟩ :=
        allCandsFrom_mem w h 0 st.bins c (selectBest_mem _ _ hsel)
      rw [Nat.sub_zero] at hget1
      have hmem1 : b1 ∈ st.bins := List.get?_mem hget1
      have hbb : b0 = b1 := by
        rw [hget] at hget1
        exact Option.some.inj hget1
      subst hbb
      exact commitBin_inv _ _ _ _ _ (hst b0 hmem1) hrect (subPF_build _ _ _ _ hf1 hf2)
  · split at hb
    · split at hb
      · rename_i c hsel
        simp only at hb
        rw [List.mem_append, List.mem_singleton] at hb
        rcases hb with hb | rfl
        · exact hst b hb
        · obtain ⟨_, b1, hget1, hrect, _, hf1, hf2⟩ :=
            allCandsFrom_mem w h 0 [newBin st.binW st.binH] c (selectBest_mem _ _ hsel)
          have hb1 : b1 = newBin st.binW st.binH := by
            cases hsi : c.si - 0 with
            | zero => rw [hsi] at hget1; simpa using hget1.symm
            | succ n => rw [hsi] at hget1; simp at hget1
          subst hb1
          exact commitBin_inv _ _ _ _ _ (newBin_inv _ _) hrect (subPF_build _ _ _ _ hf1 hf2)
      · simp only at hb
        rw [List.mem_append, List.mem_singleton] at hb
        rcases hb with hb | rfl
        · exact hst b hb
        · exact newBin_inv _ _
    · exact hst b hb

theorem placePiece_binW (st : PackState) (rid : ℕ) (w h : ℤ) :
    (placePiece st rid w h).binW = st.binW := by
  unfold placePiece
  repeat' split
  all_goals rfl

theorem placePiece_binH (st : PackState) (rid : ℕ) (w h : ℤ) :
    (placePiece st rid w h).binH = st.binH := by
  unfold placePiece
  repeat' split
  all_goals rfl

theorem placePiece_maxBins (st : PackState) (rid : ℕ) (w h : ℤ) :
    (placePiece st rid w h).maxBins = st.maxBins := by
  unfold placePiece
  repeat' split
  all_goals rfl

theorem foldl_place_binW (L : List (ℕ × ℤ × ℤ)) (st : PackState) :
    (L.foldl (fun st t => placePiece st t.1 t.2.1 t.2.2) st).binW = st.binW := by
  induction L generalizing st with
  | nil => rfl
  | cons t L ih => rw [List.foldl_cons, ih, placePiece_binW]

theorem foldl_place_binH (L : List (ℕ × ℤ × ℤ)) (st : PackState) :
    (L.foldl (fun st t => placePiece st t.1 t.2.1 t.2.2) st).binH = st.binH := by
  induction L generalizing st with
  | nil => rfl
  | cons t L ih => rw [List.foldl_cons, ih, placePiece_binH]

theorem foldl_place_inv (L : List (ℕ × ℤ × ℤ)) (st : PackState)
    (hst : ∀ b ∈ st.bins, InvBin st.binW st.binH b) :
    ∀ b ∈ (L.foldl (fun st t => placePiece st t.1 t.2.1 t.2.2) st).bins,
      InvBin st.binW st.binH b := by
  induction L generalizing st with
  | nil => exact hst
  | cons t L ih =>
    intro b hb
    rw [List.foldl_cons] at hb
    have hnext := ih (placePiece st t.1 t.2.1 t.2.2)
    rw [placePiece_binW, placePiece_binH] at hnext
    exact hnext (placePiece_inv st t.1 t.2.1 t.2.2 hst) b hb

theorem run_binW (cuts : List Cut) (sl sw k : ℚ) (g : List Char) :
    (run_layout_optimizer cuts sl sw k g).binW = scale_up sw := by
  unfold run_layout_optimizer initState
  rw [foldl_place_binW]

theorem run_binH (cuts : List Cut) (sl sw k : ℚ) (g : List Char) :
    (run_layout_optimizer cuts sl sw k g).binH = scale_up sl := by
  unfold run_layout_optimizer initState
  rw [foldl_place_binH]

theorem run_inv (cuts : List Cut) (sl sw k : ℚ) (g : List Char) :
    ∀ b ∈ (run_layout_optimizer cuts sl sw k g).bins, InvBin (scale_up sw) (scale_up sl) b := by
  unfold run_layout_optimizer initState
  exact foldl_place_inv _ _ (by intro b hb; simp at hb)

theorem count_one_elem (q r : ℕ) : List.count q [r] = if q = r then 1 else 0 := by
  by_cases h : q = r
  · subst h; simp
  · simp [List.count_cons, h]

theorem ridsOf_commitAt_count (bins : List Bin) (i : ℕ) (p : PRect) (q : ℕ) :
    (ridsOf (commitAt bins i p)).count q ≤
      (ridsOf bins).count q + (if q = p.rid then 1 else 0) := by
  induction bins generalizing i with
  | nil =>
    exact Nat.le_add_right _ _
  | cons b bs ih =>
    cases i with
    | zero =>
      simp only [commitAt, ridsOf, List.flatMap_cons, commitBin, List.map_append,
        List.count_append, List.map_cons, List.map_nil]
      rw [count_one_elem]
      omega
    | succ n =>
      have := ih n
      simp only [commitAt, ridsOf, List.flatMap_cons, List.count_append] at this ⊢
      omega

theorem commitAt_length (bins : List Bin) (i : ℕ) (p : PRect) :
    (commitAt bins i p).length = bins.length := by
  induction bins generalizing i with
  | nil => rfl
  | cons b bs ih =>
    cases i with
    | zero => rfl
    | succ n => simp [commitAt, ih]

theorem ridsOf_placePiece_count (st : PackState) (rid : ℕ) (w h : ℤ) (q : ℕ) :
    (ridsOf (placePiece st rid w h).bins).count q ≤
      (ridsOf st.bins).count q + (if q = rid then 1 else 0) := by
  unfold placePiece
  split
  · rename_i c hsel
    simpa using ridsOf_commitAt_count st.bins c.si ⟨rid, c.rect.x, c.rect.y, c.pw, c.ph⟩ q
  · split
    · split
      · rename_i c hsel
        simp only [ridsOf, List.flatMap_append, List.count_append, List.flatMap_cons,
          commitBin, newBin, List.map_append, List.flatMap_nil, List.nil_append,
          List.map_cons, List.map_nil, List.append_nil]
        rw [count_one_elem]
      · simp only [ridsOf, List.flatMap_append, List.count_append, List.flatMap_cons,
          newBin, List.map_nil, List.flatMap_nil, List.append_nil, List.count_nil]
        omega
    · exact Nat.le_add_right _ _

theorem ridsOf_foldl_count (L : List (ℕ × ℤ × ℤ)) (st : PackState) (q : ℕ) :
    (ridsOf ((L.foldl (fun st t => placePiece st t.1 t.2.1 t.2.2) st)).bins).count q ≤
      (ridsOf st.bins).count q + (L.map (fun t => t.1)).count q := by
  induction L generalizing st with
  | nil => simp
  | cons t L ih =>
    have h1 := ih (placePiece st t.1 t.2.1 t.2.2)
    have h2 := ridsOf_placePiece_count st t.1 t.2.1 t.2.2 q
    rw [List.foldl_cons]
    have h3 : ((t :: L).map (fun t => t.1)).count q =
        (L.map (fun t => t.1)).count q + (if q = t.1 then 1 else 0) := by
      rw [List.map_cons, List.count_cons]
      by_cases hq : q = t.1
      · simp [hq]
      · simp [hq, Ne.symm hq]
    rw [h3]
    omega

theorem enumFrom_fst_bounds (l : List α) (k : ℕ) (ia : ℕ × α) (h : ia ∈ enumFrom k l) :
    k ≤ ia.1 ∧ ia.1 < k + l.length := by
  induction l generalizing k with
  | nil => simp [enumFrom] at h
  | cons a as ih =>
    simp only [enumFrom, List.mem_cons] at h
    rcases h with rfl | h
    · simp
    · have := ih (k + 1) h
      simp only [List.length_cons]
      omega

theorem enumFrom_mem_get? (l : List α) (k : ℕ) (ia : ℕ × α) (h : ia ∈ enumFrom k l) :
    l.get? (ia.1 - k) = some ia.2 := by
  induction l generalizing k with
  | nil => simp [enumFrom] at h
  | cons a as ih =>
    simp only [enumFrom, List.mem_cons] at h
    rcases h with rfl | h
    · simp
    · have hb := enumFrom_fst_bounds as (k + 1) ia h
      have := ih (k + 1) h
      rw [show ia.1 - k = (ia.1 - (k + 1)) + 1 by omega]
      simpa using this

theorem enumFrom_map_fst_nodup (l : List α) (k : ℕ) :
    ((enumFrom k l).map (fun ia => ia.1)).Nodup := by
  induction l generalizing k with
  | nil => simp [enumFrom]
  | cons a as ih =>
    simp only [enumFrom, List.map_cons, List.nodup_cons]
    refine ⟨?_, ih (k + 1)⟩
    intro hk
    simp only [List.mem_map] at hk
    obtain ⟨ia, hia, hfst⟩ := hk
    have := enumFrom_fst_bounds as (k + 1) ia hia
    omega

theorem buildRects_map_fst (cuts : List Cut) (k : ℚ) :
    (buildRects cuts k).map (fun t => t.1) = (enumFrom 0 cuts).map (fun ia => ia.1) := by
  unfold buildRects
  rw [List.map_map]
  congr 1
  funext ic
  simp only [Function.comp]
  split <;> rfl

theorem run_rid_count (cuts : List Cut) (sl sw k : ℚ) (g : List Char) (q : ℕ) :
    (ridsOf (run_layout_optimizer cuts sl sw k g).bins).count q ≤ 1 := by
  unfold run_layout_optimizer initState
  have h1 := ridsOf_foldl_count (sortRects (buildRects cuts k))
    (PackState.mk (scale_up sw) (scale_up sl) 100 []) q
  have h0 : (ridsOf (PackState.mk (scale_up sw) (scale_up sl) 100 []).bins).count q = 0 := rfl
  rw [h0] at h1
  have h2 : ((sortRects (buildRects cuts k)).map (fun t => t.1)).count q =
      ((buildRects cuts k).map (fun t => t.1)).count q := by
    unfold sortRects
    exact ((List.perm_insertionSort rectLE (buildRects cuts k)).map (fun t => t.1)).count_eq q
  have h3 : ((buildRects cuts k).map (fun t => t.1)).count q ≤ 1 := by
    rw [buildRects_map_fst]
    exact List.nodup_iff_count_le_one.mp (enumFrom_map_fst_nodup cuts 0) q
  omega

theorem run_rid_lt (cuts : List Cut) (sl sw k : ℚ) (g : List Char) (q : ℕ)
    (hq : q ∈ ridsOf (run_layout_optimizer cuts sl sw k g).bins) : q < cuts.length := by
  have hpos : 0 < (ridsOf (run_layout_optimizer cuts sl sw k g).bins).count q :=
    List.count_pos_iff.mpr hq
  unfold run_layout_optimizer initState at hpos
  have h1 := ridsOf_foldl_count (sortRects (buildRects cuts k))
    (PackState.mk (scale_up sw) (scale_up sl) 100 []) q
  have h0 : (ridsOf (PackState.mk (scale_up sw) (scale_up sl) 100 []).bins).count q = 0 := rfl
  rw [h0] at h1
  have h2 : ((sortRects (buildRects cuts k)).map (fun t => t.1)).count q =
      ((buildRects cuts k).map (fun t => t.1)).count q := by
    unfold sortRects
    exact ((List.perm_insertionSort rectLE (buildRects cuts k)).map (fun t => t.1)).count_eq q
  have h4 : 0 < ((buildRects cuts k).map (fun t => t.1)).count q := by omega
  have h5 : q ∈ (buildRects cuts k).map (fun t => t.1) := List.count_pos_iff.mp h4
  rw [buildRects_map_fst] at h5
  simp only [List.mem_map] at h5
  obtain ⟨ia, hia, rfl⟩ := h5
  have := enumFrom_fst_bounds cuts 0 ia hia
  omega

theorem placePiece_bins_le (st : PackState) (rid : ℕ) (w h : ℤ)
    (hst : st.bins.length ≤ st.maxBins) :
    (placePiece st rid w h).bins.length ≤ st.maxBins := by
  unfold placePiece
  split
  · simpa [commitAt_length] using hst
  · split
    · split
      · rename_i hlt _ _
        simp only [List.length_append, List.length_singleton]
        omega
      · rename_i hlt _
        simp only [List.length_append, List.length_singleton]
        omega
    · exact hst

theorem foldl_bins_le (L : List (ℕ × ℤ × ℤ)) (st : PackState)
    (hst : st.bins.length ≤ st.maxBins) :
    (L.foldl (fun st t => placePiece st t.1 t.2.1 t.2.2) st).bins.length ≤ st.maxBins := by
  induction L generalizing st with
  | nil => exact hst
  | cons t L ih =>
    rw [List.foldl_cons]
    have h1 := ih (placePiece st t.1 t.2.1 t.2.2)
    rw [placePiece_maxBins] at h1
    exact h1 (placePiece_bins_le st t.1 t.2.1 t.2.2 hst)

theorem placePiece_placed_mem (st : PackState) (rid : ℕ) (w h : ℤ) (b' : Bin)
    (hb : b' ∈ (placePiece st rid w h).bins) (p : PRect) (hp : p ∈ b'.placed) :
    (∃ b ∈ st.bins, p ∈ b.placed) ∨
      (p.rid = rid ∧ ((p.w, p.h) = (w, h) ∨ (p.w, p.h) = (h, w))) := by
  unfold placePiece at hb
  split at hb
  · rename_i c hsel
    simp only at hb
    rcases commitAt_mem _ _ _ _ hb with hmem | ⟨b0, hget, rfl⟩
    · exact Or.inl ⟨b', hmem, hp⟩
    · have hp2 : p ∈ b0.placed ++ [⟨rid, c.rect.x, c.rect.y, c.pw, c.ph⟩] := hp
      rw [List.mem_append, List.mem_singleton] at hp2
      rcases hp2 with hp2 | rfl
      · exact Or.inl ⟨b0, List.get?_mem hget, hp2⟩
      · obtain ⟨_, _, _, _, horient, _, _⟩ :=
          allCandsFrom_mem w h 0 st.bins c (selectBest_mem _ _ hsel)
        exact Or.inr ⟨rfl, horient⟩
  · split at hb
    · split at hb
      · rename_i c hsel
        simp only at hb
        rw [List.mem_append, List.mem_singleton] at hb
        rcases hb with hb | rfl
        · exact Or.inl ⟨b', hb, hp⟩
        · have hp2 : p ∈ (newBin st.binW st.binH).placed ++
              [⟨rid, c.rect.x, c.rect.y, c.pw, c.ph⟩] := hp
          simp only [newBin, List.nil_append, List.mem_singleton] at hp2
          subst hp2
          obtain ⟨_, _, _, _, horient, _, _⟩ :=
            allCandsFrom_mem w h 0 [newBin st.binW st.binH] c (selectBest_mem _ _ hsel)
          exact Or.inr ⟨rfl, horient⟩
      · simp only at hb
        rw [List.mem_append, List.mem_singleton] at hb
        rcases hb with hb | rfl
        · exact Or.inl ⟨b', hb, hp⟩
        · simp [newBin] at hp
    · exact Or.inl ⟨b', hb, hp⟩

theorem foldl_placed_dims (L : List (ℕ × ℤ × ℤ)) (st : PackState) (b' : Bin)
    (hb : b' ∈ ((L.foldl (fun st t => placePiece st t.1 t.2.1 t.2.2) st)).bins)
    (p : PRect) (hp : p ∈ b'.placed) :
    (∃ b ∈ st.bins, p ∈ b.placed) ∨
      ∃ t ∈ L, p.rid = t.1 ∧
        ((p.w, p.h) = (t.2.1, t.2.2) ∨ (p.w, p.h) = (t.2.2, t.2.1)) := by
  induction L generalizing st with
  | nil => exact Or.inl ⟨b', hb, hp⟩
  | cons t L ih =>
    rw [List.foldl_cons] at hb
    rcases ih (placePiece st t.1 t.2.1 t.2.2) hb with ⟨b, hbm, hpm⟩ | ⟨t0, ht0, hres⟩
    · rcases placePiece_placed_mem st t.1 t.2.1 t.2.2 b hbm p hpm with hold | hnew
      · exact Or.inl hold
      · exact Or.inr ⟨t, List.mem_cons_self _ _, hnew⟩
    · exact Or.inr ⟨t0, List.mem_cons_of_mem _ ht0, hres⟩

theorem run_placed_dims (cuts : List Cut) (sl sw k : ℚ) (g : List Char) (b : Bin)
    (hb : b ∈ (run_layout_optimizer cuts sl sw k g).bins) (p : PRect) (hp : p ∈ b.placed) :
    ∃ cut, cuts.get? p.rid = some cut ∧
      ((p.w, p.h) = (scale_up (cut.width + k), scale_up (cut.length + k)) ∨
        (p.w, p.h) = (scale_up (cut.length + k), scale_up (cut.width + k))) := by
  unfold run_layout_optimizer initState at hb
  rcases foldl_placed_dims _ _ b hb p hp with ⟨b0, hbm, _⟩ | ⟨t, ht, hrid, hdims⟩
  · simp at hbm
  · have ht2 : t ∈ buildRects cuts k :=
      (List.perm_insertionSort rectLE (buildRects cuts k)).mem_iff.mp ht
    simp only [buildRects, List.mem_map] at ht2
    obtain ⟨ic, hic, heq⟩ := ht2
    have hget := enumFrom_mem_get? cuts 0 ic hic
    rw [Nat.sub_zero] at hget
    split at heq
    · refine ⟨ic.2, ?_, ?_⟩
      · rw [hrid, ← heq]
        exact hget
      · rcases hdims with hd | hd <;> rw [← heq] at hd
        · exact Or.inr hd
        · exact Or.inl hd
    · refine ⟨ic.2, ?_, ?_⟩
      · rw [hrid, ← heq]
        exact hget
      · rcases hdims with hd | hd <;> rw [← heq] at hd
        · exact Or.inl hd
        · exact Or.inr hd

theorem summaryRows_mem (cuts : List Cut) (k : ℚ) (bins : List Bin) (n : ℕ) (row : Row)
    (h : row ∈ summaryRows cuts k n bins) :
    ∃ m b p, b ∈ bins ∧ p ∈ b.placed ∧ row = rowOf cuts k m p := by
  induction bins generalizing n with
  | nil => simp [summaryRows] at h
  | cons b bs ih =>
    simp only [summaryRows, List.mem_append, List.mem_map] at h
    rcases h with ⟨p, hp, rfl⟩ | h
    · exact ⟨n, b, p, List.mem_cons_self _ _, hp, rfl⟩
    · obtain ⟨m, b0, p, hb0, hp, hrow⟩ := ih (n + 1) h
      exact ⟨m, b0, p, List.mem_cons_of_mem _ hb0, hp, hrow⟩

theorem getD_of_get? (l : List α) (i : ℕ) (a d : α) (h : l.get? i = some a) :
    l.getD i d = a := by
  simp only [List.getD_eq_getElem?_getD, List.get?_eq_getElem?] at h ⊢
  simp [h]

theorem kerf_roundtrip_bound (d k : ℚ) :
    |roundTo 4 ((scale_up (d + k) : ℚ) / 100 - k) - d| ≤ 101/20000 := by
  have h1 := pyRound_sub_abs_le ((d + k) * 100)
  have h2 := roundTo_sub_abs_le 4 ((scale_up (d + k) : ℚ) / 100 - k)
  have hz : ((scale_up (d + k) : ℚ) / 100 - k) - d =
      ((pyRound ((d + k) * 100) : ℚ) - (d + k) * 100) / 100 := by
    unfold scale_up
    ring
  have h3 : |((scale_up (d + k) : ℚ) / 100 - k) - d| ≤ 1/200 := by
    rw [hz, abs_div]
    have habs : |(100 : ℚ)| = 100 := by norm_num
    rw [habs, div_le_iff₀ (by norm_num : (0:ℚ) < 100)]
    linarith
  calc |roundTo 4 ((scale_up (d + k) : ℚ) / 100 - k) - d|
      ≤ |roundTo 4 ((scale_up (d + k) : ℚ) / 100 - k) - ((scale_up (d + k) : ℚ) / 100 - k)| +
        |((scale_up (d + k) : ℚ) / 100 - k) - d| := abs_sub_le _ _ _
    _ ≤ 1 / (2 * 10 ^ 4) + 1/200 := add_le_add h2 h3
    _ ≤ 101/20000 := by norm_num

theorem parseLinesAux_ok (ls : List (List Char))
    (h : ∀ l ∈ ls, parse_cut_line l ≠ Except.error PyErr.zeroDivision) :
    ∃ ps, parseLinesAux ls = Except.ok ps := by
  induction ls with
  | nil => exact ⟨[], rfl⟩
  | cons l ls ih =>
    obtain ⟨ps, hps⟩ := ih fun x hx => h x (List.mem_cons_of_mem _ hx)
    simp only [parseLinesAux]
    split
    · exact ⟨ps, hps⟩
    · cases hpl : parse_cut_line l with
      | ok p =>
        rw [hps]
        exact ⟨_, rfl⟩
      | error e =>
        cases e with
        | valueError => exact ⟨ps, hps⟩
        | zeroDivision => exact absurd hpl (h l (List.mem_cons_self _ _))

/-- C2: in every run, for all pairs of placements committed to the same
sheet, the footprint rectangles (placed width and height, kerf included)
do not overlap in area, and every placement's footprint lies entirely
within the sheet's scaled bounds. -/
theorem c2_no_overlap_and_containment (cuts : List Cut) (sl sw k : ℚ) (g : List Char) :
    ∀ b ∈ (run_layout_optimizer cuts sl sw k g).bins,
      b.placed.Pairwise noOverlap ∧
        ∀ p ∈ b.placed,
          inBounds (run_layout_optimizer cuts sl sw k g).binW
            (run_layout_optimizer cuts sl sw k g).binH p := by
  intro b hb
  obtain ⟨_, _, hPb, hPP⟩ := run_inv cuts sl sw k g b hb
  refine ⟨hPP, ?_⟩
  intro p hp
  rw [run_binW, run_binH]
  exact hPb p hp

/-- C3: every summary row comes from a placed rectangle whose footprint is
(in some orientation) the kerf-padded scaled pair
(scale_up(width + kerf), scale_up(length + kerf)) of its cut, and the
reported width/height recover the cut's original dimensions, in that same
orientation pairing, within the absolute tolerance 101/20000 = 0.00505
(the half-tick of the 1/100 fixed-point scale plus the half-tick of the
4-decimal display rounding), independent of rotation. -/
theorem c3_footprint_and_kerf_roundtrip (cuts : List Cut) (sl sw k : ℚ) (g : List Char) :
    ∀ row ∈ generate_layout_summary (run_layout_optimizer cuts sl sw k g) cuts k,
      ∃ m p cut, (∃ b ∈ (run_layout_optimizer cuts sl sw k g).bins, p ∈ b.placed) ∧
        row = rowOf cuts k m p ∧ cuts.get? p.rid = some cut ∧
        (((p.w, p.h) = (scale_up (cut.width + k), scale_up (cut.length + k)) ∧
            |row.width - cut.width| ≤ 101/20000 ∧ |row.height - cut.length| ≤ 101/20000) ∨
          ((p.w, p.h) = (scale_up (cut.length + k), scale_up (cut.width + k)) ∧
            |row.width - cut.length| ≤ 101/20000 ∧ |row.height - cut.width| ≤ 101/20000)) := by
  intro row hrow
  obtain ⟨m, b, p, hb, hp, hrowEq⟩ := summaryRows_mem cuts k _ 0 row hrow
  obtain ⟨cut, hget, hdims⟩ := run_placed_dims cuts sl sw k g b hb p hp
  refine ⟨m, p, cut, ⟨b, hb, hp⟩, hrowEq, hget, ?_⟩
  have hW : row.width = roundTo 4 ((p.w : ℚ) / 100 - k) := by rw [hrowEq]; rfl
  have hH : row.height = roundTo 4 ((p.h : ℚ) / 100 - k) := by rw [hrowEq]; rfl
  rcases hdims with hd | hd
  · have hpw : p.w = scale_up (cut.width + k) := congrArg Prod.fst hd
    have hph : p.h = scale_up (cut.length + k) := congrArg Prod.snd hd
    refine Or.inl ⟨hd, ?_, ?_⟩
    · rw [hW, hpw]; exact kerf_roundtrip_bound cut.width k
    · rw [hH, hph]; exact kerf_roundtrip_bound cut.length k
  · have hpw : p.w = scale_up (cut.length + k) := congrArg Prod.fst hd
    have hph : p.h = scale_up (cut.width + k) := congrArg Prod.snd hd
    refine Or.inr ⟨hd, ?_, ?_⟩
    · rw [hW, hpw]; exact kerf_roundtrip_bound cut.length k
    · rw [hH, hph]; exact kerf_roundtrip_bound cut.width k

/-- C4 (amended): every placed piece id occurs at most once across all
sheets and refers to an input piece; the output contains no unplaced list
of any kind, so pieces the packer cannot place are simply absent. -/
theorem c4_placed_at_most_once_and_in_range (cuts : List Cut) (sl sw k : ℚ) (g : List Char) :
    (∀ q : ℕ, (ridsOf (run_layout_optimizer cuts sl sw k g).bins).count q ≤ 1) ∧
      ∀ q ∈ ridsOf (run_layout_optimizer cuts sl sw k g).bins, q < cuts.length :=
  ⟨fun q => run_rid_count cuts sl sw k g q, fun q hq => run_rid_lt cuts sl sw k g q hq⟩

/-- C5 (amended): no InvalidDimension validation exists anywhere; the
parser cannot produce a negative dimension (the grammar has no sign), and
that is the only sense in which bad dimensions are excluded -- zero
dimensions parse fine and are packed like any other piece. -/
theorem c5_parsed_dims_nonneg (line : List Char) (p : ParsedLine)
    (h : parse_cut_line line = Except.ok p) : 0 ≤ p.length ∧ 0 ≤ p.width := by
  unfold parse_cut_line at h
  split at h
  · exact absurd h (by simp)
  · split at h
    · exact absurd h (by simp)
    · rename_i len hlen
      split at h
      · exact absurd h (by simp)
      · rename_i wid hwid
        simp only [Except.ok.injEq] at h
        subst h
        exact ⟨parse_fractional_inches_nonneg _ _ hlen, parse_fractional_inches_nonneg _ _ hwid⟩

/-- C6 (amended): the number of sheets a run can open is capped by the
hardcoded constant 100 (the number of add_bin calls in the source), not by
any caller-configurable maximum; no SheetLimitExceeded marking exists. -/
theorem c6_sheet_cap_hardcoded_100 (cuts : List Cut) (sl sw k : ℚ) (g : List Char) :
    (run_layout_optimizer cuts sl sw k g).bins.length ≤ 100 := by
  unfold run_layout_optimizer initState
  exact foldl_bins_le _ _ (by simp)

/-- C7: the optimizer is deterministic -- two runs on identical inputs
(pieces, sheet dimensions, kerf, grain direction) produce identical
packing states: same sheet assignment, coordinates and orientation for
every piece. -/
theorem c7_deterministic (cuts1 cuts2 : List Cut) (sl1 sl2 sw1 sw2 k1 k2 : ℚ)
    (g1 g2 : List Char) (hc : cuts1 = cuts2) (hsl : sl1 = sl2) (hsw : sw1 = sw2)
    (hk : k1 = k2) (hg : g1 = g2) :
    run_layout_optimizer cuts1 sl1 sw1 k1 g1 = run_layout_optimizer cuts2 sl2 sw2 k2 g2 := by
  subst hc
  subst hsl
  subst hsw
  subst hk
  subst hg
  rfl

/-- C7 witness: two runs on the same concrete input coincide. -/
theorem c7_witness :
    run_layout_optimizer [⟨24, 36, none⟩] 96 48 0 ("Lengthwise".data) =
      run_layout_optimizer [⟨24, 36, none⟩] 96 48 0 ("Lengthwise".data) :=
  c7_deterministic _ _ _ _ _ _ _ _ _ _ rfl rfl rfl rfl rfl

/-- C8 (amended): batch parsing never aborts as long as no line raises
ZeroDivisionError (a zero-denominator fraction); lines that fail with
ValueError are skipped with a warning and the remaining lines are parsed. -/
theorem c8_batch_parse_no_abort (text : List Char)
    (h : ∀ l ∈ pySplitLines (pyStrip text), parse_cut_line l ≠ Except.error PyErr.zeroDivision) :
    ∃ ps, parse_cut_list text = Except.ok ps :=
  parseLinesAux_ok _ h

/-- C9: the packing result is identical for any two values of the
grain_direction argument -- the parameter is accepted but never used. -/
theorem c9_grain_direction_unused (cuts : List Cut) (sl sw k : ℚ) (g1 g2 : List Char) :
    run_layout_optimizer cuts sl sw k g1 = run_layout_optimizer cuts sl sw k g2 := rfl

/-- C10 (amended): for a placed piece whose cut is square (length =
width), the summary table's inferred rotated flag is always false, because
the 4-decimal recovered dimensions stay within 0.00505 < 0.01 of the
original; the drawing's flag, which rounds the display value to 2 decimals
with a 1e-6 bias, does not share this guarantee. -/
theorem c10_square_summary_flag_false (cuts : List Cut) (sl sw k : ℚ) (g : List Char) :
    ∀ b ∈ (run_layout_optimizer cuts sl sw k g).bins, ∀ p ∈ b.placed, ∀ cut,
      cuts.get? p.rid = some cut → cut.length = cut.width → ∀ m,
        (rowOf cuts k m p).rotated = false := by
  intro b hb p hp cut hget hsq m
  obtain ⟨cut2, hget2, hdims⟩ := run_placed_dims cuts sl sw k g b hb p hp
  rw [hget] at hget2
  have hcuts : cut = cut2 := Option.some.inj hget2
  subst hcuts
  have hpw : p.w = scale_up (cut.width + k) := by
    rcases hdims with hd | hd
    · exact congrArg Prod.fst hd
    · have h1 : p.w = scale_up (cut.length + k) := congrArg Prod.fst hd
      rw [h1, hsq]
  have hph : p.h = scale_up (cut.width + k) := by
    rcases hdims with hd | hd
    · have h1 : p.h = scale_up (cut.length + k) := congrArg Prod.snd hd
      rw [h1, hsq]
    · exact congrArg Prod.snd hd
  have hcutD : cuts.getD p.rid defaultCut = cut := getD_of_get? _ _ _ _ hget
  have hA : |roundTo 4 ((p.w : ℚ) / 100 - k) - cut.width| < 1/100 := by
    rw [hpw]
    have := kerf_roundtrip_bound cut.width k
    linarith
  have hB : |roundTo 4 ((p.h : ℚ) / 100 - k) - cut.length| < 1/100 := by
    rw [hph, hsq]
    have := kerf_roundtrip_bound cut.width k
    linarith
  simp only [rowOf, hcutD]
  rw [decide_eq_true hA, decide_eq_true hB]
  rfl

theorem enumFrom_replicate (c : Cut) (n k : ℕ) :
    enumFrom k (List.replicate n c) = (List.range' k n).map (fun i => (i, c)) := by
  induction n generalizing k with
  | zero => rfl
  | succ m ih =>
    rw [List.replicate_succ, List.range'_succ]
    simp only [enumFrom, List.map_cons]
    rw [ih (k + 1)]

theorem buildRects_replicate (n : ℕ) (c : Cut) (kerf : ℚ) (w h : ℤ)
    (hw : scale_up (c.width + kerf) = w) (hh : scale_up (c.length + kerf) = h)
    (hg : ¬ ((c.grain = some Grain.L ∧ c.width > c.length) ∨
      (c.grain = some Grain.W ∧ c.length > c.width))) :
    buildRects (List.replicate n c) kerf = (List.range n).map (fun i => (i, w, h)) := by
  unfold buildRects
  rw [enumFrom_replicate c n 0, List.map_map, List.range_eq_range' n]
  apply List.map_congr_left
  intro i _
  simp only [Function.comp]
  rw [if_neg hg, hw, hh]

theorem scenarioA_state :
    run_layout_optimizer [⟨24, 36, none⟩] 96 48 0 ("Lengthwise".data) =
      PackState.mk 4800 9600 100
        [Bin.mk [PRect.mk 0 0 0 3600 2400]
          [FRect.mk 3600 0 1200 9600, FRect.mk 0 2400 4800 7200]] := by
  rw [run_eval [⟨24, 36, none⟩] 96 48 0 ("Lengthwise".data) [(0, 3600, 2400)] 4800 9600
    (buildRects_one _ _ _ _ (scale_up_eq_intCast _ _ (by norm_num))
      (scale_up_eq_intCast _ _ (by norm_num)) (by decide))
    (scale_up_eq_intCast _ _ (by norm_num)) (scale_up_eq_intCast _ _ (by norm_num))]
  decide

theorem scenarioSq_state :
    run_layout_optimizer [⟨24, 24, none⟩] 48 48 0 ("Lengthwise".data) =
      PackState.mk 4800 4800 100
        [Bin.mk [PRect.mk 0 0 0 2400 2400]
          [FRect.mk 2400 0 2400 4800, FRect.mk 0 2400 4800 2400]] := by
  rw [run_eval [⟨24, 24, none⟩] 48 48 0 ("Lengthwise".data) [(0, 2400, 2400)] 4800 4800
    (buildRects_one _ _ _ _ (scale_up_eq_intCast _ _ (by norm_num))
      (scale_up_eq_intCast _ _ (by norm_num)) (by decide))
    (scale_up_eq_intCast _ _ (by norm_num)) (scale_up_eq_intCast _ _ (by norm_num))]
  decide

/-- C1: evaluation of the failing input.  A single cut of length 8 and
width 4 with grain along the length, on a sheet of length 5 and width 10
with no kerf, is committed as an 800 x 400 footprint (scaled): its long
side lies across the sheet's length axis, the orientation the forced
single-orientation grain rule forbids.  The grain pre-swap in the source
sets the initial orientation correctly (400 wide, 800 tall), but because
every rectangle is packed with rotation allowed, the packer rotates it to
make it fit. -/
theorem c1_grain_forced_orientation_violated :
    (run_layout_optimizer [⟨8, 4, some Grain.L⟩] 5 10 0 ("Lengthwise".data)).bins =
      [Bin.mk [PRect.mk 0 0 0 800 400] [FRect.mk 800 0 200 500, FRect.mk 0 400 1000 100]] ∧
    ¬ grainConsistent ⟨8, 4, some Grain.L⟩ (PRect.mk 0 0 0 800 400) := by
  constructor
  · rw [run_eval [⟨8, 4, some Grain.L⟩] 5 10 0 ("Lengthwise".data) [(0, 400, 800)] 1000 500
      (buildRects_one _ _ _ _ (scale_up_eq_intCast _ _ (by norm_num))
        (scale_up_eq_intCast _ _ (by norm_num)) (by decide))
      (scale_up_eq_intCast _ _ (by norm_num)) (scale_up_eq_intCast _ _ (by norm_num))]
    decide
  · decide

/-- C2 witness: the no-overlap and containment conclusion at a concrete
run (one 24 x 36 cut on a 96 x 48 sheet, kerf 0). -/
theorem c2_witness :
    ((Bin.mk [PRect.mk 0 0 0 3600 2400] [FRect.mk 3600 0 1200 9600, FRect.mk 0 2400 4800 7200]) ∈
      (run_layout_optimizer [⟨24, 36, none⟩] 96 48 0 ("Lengthwise".data)).bins) ∧
    ((Bin.mk [PRect.mk 0 0 0 3600 2400]
        [FRect.mk 3600 0 1200 9600, FRect.mk 0 2400 4800 7200]).placed.Pairwise noOverlap ∧
      ∀ p ∈ (Bin.mk [PRect.mk 0 0 0 3600 2400]
          [FRect.mk 3600 0 1200 9600, FRect.mk 0 2400 4800 7200]).placed,
        inBounds (run_layout_optimizer [⟨24, 36, none⟩] 96 48 0 ("Lengthwise".data)).binW
          (run_layout_optimizer [⟨24, 36, none⟩] 96 48 0 ("Lengthwise".data)).binH p) := by
  have hmem : (Bin.mk [PRect.mk 0 0 0 3600 2400]
      [FRect.mk 3600 0 1200 9600, FRect.mk 0 2400 4800 7200]) ∈
      (run_layout_optimizer [⟨24, 36, none⟩] 96 48 0 ("Lengthwise".data)).bins := by
    rw [scenarioA_state]
    decide
  exact ⟨hmem, c2_no_overlap_and_containment [⟨24, 36, none⟩] 96 48 0 ("Lengthwise".data) _ hmem⟩

/-- C3 witness: the footprint and round-trip conclusion at a concrete run
(one 24 x 36 cut on a 96 x 48 sheet, kerf 0). -/
theorem c3_witness :
    (rowOf [⟨24, 36, none⟩] 0 0 (PRect.mk 0 0 0 3600 2400) ∈
      generate_layout_summary (run_layout_optimizer [⟨24, 36, none⟩] 96 48 0 ("Lengthwise".data))
        [⟨24, 36, none⟩] 0) ∧
    (∃ m p cut,
      (∃ b ∈ (run_layout_optimizer [⟨24, 36, none⟩] 96 48 0 ("Lengthwise".data)).bins,
        p ∈ b.placed) ∧
      rowOf [⟨24, 36, none⟩] 0 0 (PRect.mk 0 0 0 3600 2400) = rowOf [⟨24, 36, none⟩] 0 m p ∧
      ([(⟨24, 36, none⟩ : Cut)] : List Cut).get? p.rid = some cut ∧
      (((p.w, p.h) = (scale_up (cut.width + 0), scale_up (cut.length + 0)) ∧
          |(rowOf [⟨24, 36, none⟩] 0 0 (PRect.mk 0 0 0 3600 2400)).width - cut.width| ≤
            101/20000 ∧
          |(rowOf [⟨24, 36, none⟩] 0 0 (PRect.mk 0 0 0 3600 2400)).height - cut.length| ≤
            101/20000) ∨
        ((p.w, p.h) = (scale_up (cut.length + 0), scale_up (cut.width + 0)) ∧
          |(rowOf [⟨24, 36, none⟩] 0 0 (PRect.mk 0 0 0 3600 2400)).width - cut.length| ≤
            101/20000 ∧
          |(rowOf [⟨24, 36, none⟩] 0 0 (PRect.mk 0 0 0 3600 2400)).height - cut.width| ≤
            101/20000))) := by
  have hmem : rowOf [⟨24, 36, none⟩] 0 0 (PRect.mk 0 0 0 3600 2400) ∈
      generate_layout_summary (run_layout_optimizer [⟨24, 36, none⟩] 96 48 0 ("Lengthwise".data))
        [⟨24, 36, none⟩] 0 := by
    rw [scenarioA_state]
    simp [generate_layout_summary, summaryRows]
  exact ⟨hmem, c3_footprint_and_kerf_roundtrip [⟨24, 36, none⟩] 96 48 0 ("Lengthwise".data) _ hmem⟩

/-- C4 counterexample: a 13 x 5 cut on a 12 x 12 sheet (kerf 0) fits in no
orientation; the summary table of the run is empty and carries no
unplaced entry or reason of any kind, while the input has one piece --
so placed plus unplaced entries in the output do not add up to the
input count. -/
theorem c4_counterexample :
    generate_layout_summary (run_layout_optimizer [⟨13, 5, none⟩] 12 12 0 ("Lengthwise".data))
      [⟨13, 5, none⟩] 0 = [] ∧ ([(⟨13, 5, none⟩ : Cut)] : List Cut).length = 1 := by
  constructor
  · rw [run_eval [⟨13, 5, none⟩] 12 12 0 ("Lengthwise".data) [(0, 500, 1300)] 1200 1200
      (buildRects_one _ _ _ _ (scale_up_eq_intCast _ _ (by norm_num))
        (scale_up_eq_intCast _ _ (by norm_num)) (by decide))
      (scale_up_eq_intCast _ _ (by norm_num)) (scale_up_eq_intCast _ _ (by norm_num))]
    rfl
  · rfl

/-- C4 witness: at a concrete run that places its single piece, the
placed id 0 is in range. -/
theorem c4_witness :
    (0 ∈ ridsOf (run_layout_optimizer [⟨24, 36, none⟩] 96 48 0 ("Lengthwise".data)).bins) ∧
      0 < ([(⟨24, 36, none⟩ : Cut)] : List Cut).length := by
  have hmem : 0 ∈ ridsOf
      (run_layout_optimizer [⟨24, 36, none⟩] 96 48 0 ("Lengthwise".data)).bins := by
    rw [scenarioA_state]
    decide
  exact ⟨hmem,
    (c4_placed_at_most_once_and_in_range [⟨24, 36, none⟩] 96 48 0 ("Lengthwise".data)).2 0 hmem⟩

/-- C5 counterexample: the line `0x5` parses without any error into a
zero-length piece, and running the optimizer on that piece places it
(piece id 0 is committed) -- no InvalidDimension failure exists and
packing is attempted (and succeeds) on a non-positive dimension. -/
theorem c5_counterexample :
    parse_cut_line ("0x5".data) = Except.ok ⟨0, 5, none, 1⟩ ∧
    ridsOf (run_layout_optimizer [⟨0, 5, none⟩] 10 10 0 ("Lengthwise".data)).bins = [0] := by
  constructor
  · decide
  · rw [run_eval [⟨0, 5, none⟩] 10 10 0 ("Lengthwise".data) [(0, 500, 0)] 1000 1000
      (buildRects_one _ _ _ _ (scale_up_eq_intCast _ _ (by norm_num))
        (scale_up_eq_intCast _ _ (by norm_num)) (by decide))
      (scale_up_eq_intCast _ _ (by norm_num)) (scale_up_eq_intCast _ _ (by norm_num))]
    decide

/-- C5 witness: the parsed dimensions of a concrete line are nonnegative. -/
theorem c5_witness :
    parse_cut_line ("2 x 3".data) = Except.ok ⟨2, 3, none, 1⟩ ∧
    (0 ≤ (ParsedLine.mk 2 3 none 1).length ∧ 0 ≤ (ParsedLine.mk 2 3 none 1).width) :=
  ⟨by decide, c5_parsed_dims_nonneg ("2 x 3".data) ⟨2, 3, none, 1⟩ (by decide)⟩

set_option maxRecDepth 100000 in
/-- C6 counterexample: 101 one-by-one cuts on a one-by-one sheet (kerf 0)
fill all 100 hardcoded bins with one piece each; the 101st piece (id 100)
is simply absent from the output -- there is no SheetLimitExceeded
marking, no unplaced record, and no way to configure the 100-sheet cap. -/
theorem c6_counterexample :
    (run_layout_optimizer (List.replicate 101 ⟨1, 1, none⟩) 1 1 0
      ("Lengthwise".data)).bins.length = 100 ∧
    (ridsOf (run_layout_optimizer (List.replicate 101 ⟨1, 1, none⟩) 1 1 0
      ("Lengthwise".data)).bins).length = 100 ∧
    100 ∉ ridsOf (run_layout_optimizer (List.replicate 101 ⟨1, 1, none⟩) 1 1 0
      ("Lengthwise".data)).bins ∧
    (List.replicate 101 (Cut.mk 1 1 none)).length = 101 := by
  rw [run_eval (List.replicate 101 ⟨1, 1, none⟩) 1 1 0 ("Lengthwise".data)
    ((List.range 101).map (fun i => (i, 100, 100))) 100 100
    (buildRects_replicate 101 _ 0 100 100 (scale_up_eq_intCast _ _ (by norm_num))
      (scale_up_eq_intCast _ _ (by norm_num)) (by decide))
    (scale_up_eq_intCast _ _ (by norm_num)) (scale_up_eq_intCast _ _ (by norm_num))]
  refine ⟨?_, ?_, ?_, rfl⟩ <;> decide

/-- C8 counterexample: the cut list `1/0 x 5` followed by `2 x 3` matches
the line grammar, but the zero-denominator fraction raises
ZeroDivisionError, which is not caught -- the whole batch aborts and the
well-formed second line is never parsed. -/
theorem c8_counterexample :
    parse_cut_list ("1/0 x 5\n2 x 3".data) = Except.error PyErr.zeroDivision := by
  decide

/-- C8 witness: a batch with a malformed middle line still parses. -/
theorem c8_witness :
    (∀ l ∈ pySplitLines (pyStrip ("2 x 3\nbogus\n4x5 W".data)),
      parse_cut_line l ≠ Except.error PyErr.zeroDivision) ∧
    ∃ ps, parse_cut_list ("2 x 3\nbogus\n4x5 W".data) = Except.ok ps :=
  ⟨by decide, c8_batch_parse_no_abort ("2 x 3\nbogus\n4x5 W".data) (by decide)⟩

/-- C10 counterexample: a square 0.25 x 0.25 cut with the default kerf of
1/8 on a 96 x 48 sheet is placed unrotated, yet draw_layout's inferred
flag marks it rotated: 0.25 + 0.125 scales to the exact half-tick 37.5,
which banker's rounding takes up to 38; the display value
round(0.38 - 0.125 + 1e-6, 2) = 0.26 then differs from 0.25 by a full
0.01, defeating the strict 0.01 tolerance. -/
theorem c10_counterexample :
    draw_rotated_flags (run_layout_optimizer [⟨1/4, 1/4, none⟩] 96 48 (1/8) ("Lengthwise".data))
      [⟨1/4, 1/4, none⟩] (1/8) = [[true]] := by
  rw [run_eval [⟨1/4, 1/4, none⟩] 96 48 (1/8) ("Lengthwise".data) [(0, 38, 38)] 4800 9600
    (buildRects_one _ _ _ _ (scale_up_eq_of_half_odd _ 37 (by norm_num) (by decide))
      (scale_up_eq_of_half_odd _ 37 (by norm_num) (by decide)) (by decide))
    (scale_up_eq_intCast _ _ (by norm_num)) (scale_up_eq_intCast _ _ (by norm_num))]
  have hstate : (List.foldl (fun st t => placePiece st t.1 t.2.1 t.2.2)
      (PackState.mk 4800 9600 100 []) (sortRects [(0, 38, 38)])) =
      PackState.mk 4800 9600 100
        [Bin.mk [PRect.mk 0 0 0 38 38] [FRect.mk 38 0 4762 9600, FRect.mk 0 38 4800 9562]] := by
    decide
  rw [hstate]
  have hr : rounded ((38 : ℚ) / 100 - 1/8) = 26/100 := by
    unfold rounded roundTo
    rw [show ((38 : ℚ) / 100 - 1/8 + 1/1000000) * 10 ^ 2 = 255001/10000 by norm_num]
    rw [pyRound_eq_of_gt_half (255001/10000 : ℚ) 25 (by norm_num) (by norm_num)]
    push_cast
    norm_num
  have hflag : ¬ (|(26 : ℚ) / 100 - (1 : ℚ) / 4| < 1/100) := by
    rw [show (26 : ℚ) / 100 - (1 : ℚ) / 4 = 1/100 by norm_num]
    rw [abs_of_nonneg (by norm_num : (0 : ℚ) ≤ 1/100)]
    exact lt_irrefl _
  simp only [draw_rotated_flags, List.map_cons, List.map_nil, List.getD_cons_zero]
  push_cast
  rw [hr]
  rw [decide_eq_false hflag]
  simp

/-- C10 witness: the summary flag of a concretely placed square piece is
false. -/
theorem c10_witness :
    ((Bin.mk [PRect.mk 0 0 0 2400 2400] [FRect.mk 2400 0 2400 4800, FRect.mk 0 2400 4800 2400]) ∈
      (run_layout_optimizer [⟨24, 24, none⟩] 48 48 0 ("Lengthwise".data)).bins) ∧
    (PRect.mk 0 0 0 2400 2400 ∈ (Bin.mk [PRect.mk 0 0 0 2400 2400]
      [FRect.mk 2400 0 2400 4800, FRect.mk 0 2400 4800 2400]).placed) ∧
    (([(⟨24, 24, none⟩ : Cut)] : List Cut).get? (PRect.mk 0 0 0 2400 2400).rid =
      some ⟨24, 24, none⟩) ∧
    ((⟨24, 24, none⟩ : Cut).length = (⟨24, 24, none⟩ : Cut).width) ∧
    (rowOf [⟨24, 24, none⟩] 0 0 (PRect.mk 0 0 0 2400 2400)).rotated = false := by
  have hmem : (Bin.mk [PRect.mk 0 0 0 2400 2400]
      [FRect.mk 2400 0 2400 4800, FRect.mk 0 2400 4800 2400]) ∈
      (run_layout_optimizer [⟨24, 24, none⟩] 48 48 0 ("Lengthwise".data)).bins := by
    rw [scenarioSq_state]
    decide
  refine ⟨hmem, by decide, by decide, by decide, ?_⟩
  exact c10_square_summary_flag_false [⟨24, 24, none⟩] 48 48 0 ("Lengthwise".data) _ hmem
    (PRect.mk 0 0 0 2400 2400) (by decide) ⟨24, 24, none⟩ (by decide) (by decide) 0
